import Mathlib

/-!
Shallow embedding of the ID2T attack-traffic synthesis engine, covering
`Attack/SMBScanAttack.py`, `ID2TLib/Botnet/CommunicationProcessor.py`,
`Core/Controller.py` and the narrow collaborator interfaces they consume.
External collaborators (scapy packet byte lengths, the statistics store, the
C++ interval finder, the secure random source) are modelled as explicit
oracle parameters, so every definition stays executable.
-/

set_option maxHeartbeats 1000000

namespace ID2T

namespace SMBScan

/-- The kind of each TCP segment emitted by `generate_attack_packets`
(`SMBScanAttack.py` lines 256-437), in the order they appear in the code. -/
inductive PktKind
  | syn          -- line 259, flags S
  | synAck       -- line 278, flags SA
  | hsAck        -- line 289, flags A (handshake confirm)
  | smbReq       -- line 321, flags PA (negotiate protocol request)
  | smbReqAck    -- line 338, flags A
  | smbRsp       -- line 376, flags PA (negotiate protocol response)
  | smbRspAck    -- line 392, flags A
  | finAttacker  -- line 401, flags FA
  | finVictim    -- line 411, flags FA
  | finalAck     -- line 421, flags A
  | rst          -- line 433, flags RA
  deriving DecidableEq

/-- Which simulated endpoint emits a segment. -/
inductive Sender
  | attacker
  | victim
  deriving DecidableEq

/-- The two on-wire layouts of the SMB negotiate protocol response
(`SMBScanAttack.py` lines 359-374). -/
inductive RspShape
  | legacy  -- SMBNegociate_Protocol_Response_Advanced_Security (line 371)
  | smb2    -- SMB2_SYNC_Header plus SMB2_Negotiate_Protocol_Response (lines 360-368)
  deriving DecidableEq

/-- One emitted packet.  `seq`/`ack` mirror the TCP header fields the code
sets; `aSeqAfter`/`vSeqAfter` record the Python locals `attacker_seq` and
`victim_seq` at the moment of this packet's `add_packet` call (all counter
updates for a segment happen between the previous `add_packet` and its own). -/
structure Pkt where
  kind : PktKind
  conn : String      -- the target ip of the connection this packet belongs to
  sender : Sender
  seq : ℕ
  ack : ℕ
  time : ℚ
  shape : RspShape   -- meaningful only for kind = smbRsp; legacy otherwise
  aSeqAfter : ℕ
  vSeqAfter : ℕ
  deriving DecidableEq

/-- Byte lengths of the scapy-built framing and payload pieces.  These come
from the external scapy layer classes (`len(...)` calls in the code), so they
are oracle inputs of the model. -/
structure SmbLens where
  reqNetBioLen : ℕ          -- len(smb_req_net_bio), line 325
  reqHeadLen : ℕ            -- len(smb_req_head), line 325
  emptyTailLen : ℕ          -- len(SMBNegociate_Protocol_Request_Tail()), line 310
  tailLen : String → ℕ      -- len(SMBNegociate_Protocol_Request_Tail(BufferData=dia)), line 314
  rspNetBioLen : ℕ          -- len(smb_rsp_net_bio), line 380
  legacyRspLen : ℕ          -- len(smb_rsp_packet) in the legacy branch, line 374
  smb2HdrLen : ℕ            -- len(smb_rsp_packet) in the SMB2 branch, line 369
  smb2BodyLen : ℕ           -- len(smb_rsp_negotiate_body), lines 369/382

/-- Modelled from the spec: `SMBLib.smb_dialects` lives in `Lib/SMBLib.py`,
which is not under `src/`.  The spec states that protocol version "1"
negotiates a reduced 6-entry dialect list while newer versions use the full
list, so the full list is modelled as eight abstract dialect identifiers. -/
def smb_dialects : List String :=
  ["dialect0", "dialect1", "dialect2", "dialect3",
   "dialect4", "dialect5", "dialect6", "dialect7"]

/-- Dialect selection (`SMBScanAttack.py` lines 303-307). -/
def smbReqDialects (smbVersion : String) : List String :=
  if smbVersion = "1" then smb_dialects.take 6 else smb_dialects

/-- Accumulated byte size of the request tail records
(`SMBScanAttack.py` lines 300-314). -/
def smbReqTailSize (L : SmbLens) (dialects : List String) : ℕ :=
  if dialects = [] then L.emptyTailLen else (dialects.map L.tailLen).sum

/-- Which response layout the code picks (`SMBScanAttack.py` lines 359 and 381:
the SMB2 layout is used exactly when both the protocol version and the hosting
version differ from "1"). -/
def smbRspShape (smbVersion hostingVersion : String) : RspShape :=
  if smbVersion ≠ "1" ∧ hostingVersion ≠ "1" then RspShape.smb2 else RspShape.legacy

/-- Byte length of the response packet body `smb_rsp_length`
(`SMBScanAttack.py` lines 369 and 374). -/
def smbRspLen (L : SmbLens) : RspShape → ℕ
  | RspShape.legacy => L.legacyRspLen
  | RspShape.smb2 => L.smb2HdrLen + L.smb2BodyLen

/-- Total byte length of the negotiate request segment
(NetBIOS framing + header + tail records), `SMBScanAttack.py` lines 319/325. -/
def smbReqSegLen (L : SmbLens) (smbVersion : String) : ℕ :=
  L.reqNetBioLen + L.reqHeadLen + smbReqTailSize L (smbReqDialects smbVersion)

/-- Total byte length of the negotiate response segment
(NetBIOS framing + response body), `SMBScanAttack.py` lines 380-382. -/
def smbRspSegLen (L : SmbLens) (smbVersion hostingVersion : String) : ℕ :=
  L.rspNetBioLen + smbRspLen L (smbRspShape smbVersion hostingVersion)

/-- One simulated connection, mirroring `SMBScanAttack.py` lines 256-440 for a
single target `ip`.  `a0`/`v0` are the fresh random sequence numbers of
line 249-250, `tnp` is `timestamp_next_pkt`, and `ds` is the stream of delays
the timestamp controller draws (`next_timestamp` returns the pinned timestamp
plus the next delay).  Returns the emitted packets, the updated
`timestamp_next_pkt` (lines 439-440) and the unconsumed delay stream. -/
def smbConnPackets (smbVersion hostingVersion : String) (L : SmbLens) (hosting : Bool)
    (ip : String) (a0 v0 : ℕ) (tnp : ℚ) (ds : List ℚ) : List Pkt × ℚ × List ℚ :=
  let d : ℕ → ℚ := fun i => ds.getD i 0
  let a1 := a0 + 1                                    -- line 261
  let req : Pkt := ⟨PktKind.syn, ip, Sender.attacker, a0, 0, tnp, RspShape.legacy, a1, v0⟩
  let tReply := tnp + d 0                             -- line 269
  if hosting then
    let v1 := v0 + 1                                  -- line 281
    let synAckP : Pkt := ⟨PktKind.synAck, ip, Sender.victim, v0, a1, tReply, RspShape.legacy, a1, v1⟩
    let tConfirm := tReply + d 1                      -- lines 292-293
    let hsAckP : Pkt := ⟨PktKind.hsAck, ip, Sender.attacker, a1, v1, tConfirm, RspShape.legacy, a1, v1⟩
    let reqSeg := smbReqSegLen L smbVersion           -- lines 300-325
    let a2 := a1 + reqSeg                             -- line 325
    let tSmbReq := tConfirm + d 2                     -- lines 332-333
    let smbReqP : Pkt := ⟨PktKind.smbReq, ip, Sender.attacker, a1, v1, tSmbReq, RspShape.legacy, a2, v1⟩
    let tReply2 := tSmbReq + d 3                      -- lines 341-342
    let smbReqAckP : Pkt := ⟨PktKind.smbReqAck, ip, Sender.victim, v1, a2, tReply2, RspShape.legacy, a2, v1⟩
    let shape := smbRspShape smbVersion hostingVersion
    let tSmbRsp := tReply2 + d 4                      -- lines 351-352
    let v2 := v1 + smbRspSegLen L smbVersion hostingVersion  -- lines 380-382
    let smbRspP : Pkt := ⟨PktKind.smbRsp, ip, Sender.victim, v1, a2, tSmbRsp, shape, a2, v2⟩
    let tConfirm2 := tSmbRsp + d 5                    -- lines 395-396
    let smbRspAckP : Pkt := ⟨PktKind.smbRspAck, ip, Sender.attacker, a2, v2, tConfirm2, RspShape.legacy, a2, v2⟩
    let tSrcFin := tConfirm2 + d 6                    -- lines 404-405
    let a3 := a2 + 1                                  -- line 407
    let srcFinP : Pkt := ⟨PktKind.finAttacker, ip, Sender.attacker, a2, v2, tSrcFin, RspShape.legacy, a3, v2⟩
    let tDstFin := tSrcFin + d 7                      -- lines 414-415
    let v3 := v2 + 1                                  -- line 416
    let dstFinP : Pkt := ⟨PktKind.finVictim, ip, Sender.victim, v2, a3, tDstFin, RspShape.legacy, a3, v3⟩
    let tFinal := tDstFin + d 8                       -- lines 424-425
    let finalP : Pkt := ⟨PktKind.finalAck, ip, Sender.attacker, a3, v3, tFinal, RspShape.legacy, a3, v3⟩
    ([req, synAckP, hsAckP, smbReqP, smbReqAckP, smbRspP, smbRspAckP, srcFinP, dstFinP, finalP],
     tnp + d 9, ds.drop 10)                           -- lines 439-440
  else
    let rstP : Pkt := ⟨PktKind.rst, ip, Sender.victim, 0, a1, tReply, RspShape.legacy, a1, v0⟩
    ([req, rstP], tnp + d 1, ds.drop 2)               -- lines 429-440

/-- One loop iteration's record: the target ip, the two fresh random initial
sequence numbers drawn at lines 249-250, and the packets emitted for this
connection. -/
structure ConnEntry where
  ip : String
  a0 : ℕ
  v0 : ℕ
  pkts : List Pkt
  deriving DecidableEq

/-- The target loop of `generate_attack_packets` (`SMBScanAttack.py`
lines 225-440), producing one `ConnEntry` per connection.  `seqO k` supplies
the two fresh random sequence numbers of iteration `k` (lines 249-250);
targets equal to the source are skipped but still advance
`timestamp_next_pkt` (lines 227 and 439-440). -/
def attackConns (smbVersion hostingVersion : String) (L : SmbLens) (ipSource : String)
    (hostingIps : List String) (seqO : ℕ → ℕ × ℕ) :
    List String → ℚ → List ℚ → ℕ → List ConnEntry
  | [], _, _, _ => []
  | ip :: rest, tnp, ds, k =>
    if ip = ipSource then
      attackConns smbVersion hostingVersion L ipSource hostingIps seqO rest
        (tnp + ds.getD 0 0) (ds.drop 1) (k + 1)
    else
      let ab := seqO k
      let out := smbConnPackets smbVersion hostingVersion L
        (decide (ip ∈ hostingIps)) ip ab.1 ab.2 tnp ds
      ⟨ip, ab.1, ab.2, out.1⟩ ::
        attackConns smbVersion hostingVersion L ipSource hostingIps seqO rest
          out.2.1 out.2.2 (k + 1)

/-- The flat packet buffer in emission order (the order of `add_packet` calls). -/
def attackRun (smbVersion hostingVersion : String) (L : SmbLens) (ipSource : String)
    (hostingIps : List String) (seqO : ℕ → ℕ × ℕ) (ips : List String) (tnp : ℚ)
    (ds : List ℚ) : List Pkt :=
  (attackConns smbVersion hostingVersion L ipSource hostingIps seqO ips tnp ds 0).flatMap
    ConnEntry.pkts

/-- The byte length of the sequence-number-consuming part of a segment: 1 for
SYN and FIN segments, the NetBIOS+SMB framing-plus-payload byte length for the
negotiation request and response, 0 for pure ACKs and for the RST (whose
emission advances no counter and whose seq field is the constant 0). -/
def segLen (L : SmbLens) (smbVersion hostingVersion : String) : PktKind → ℕ
  | PktKind.syn => 1
  | PktKind.synAck => 1
  | PktKind.smbReq => smbReqSegLen L smbVersion
  | PktKind.smbRsp => smbRspSegLen L smbVersion hostingVersion
  | PktKind.finAttacker => 1
  | PktKind.finVictim => 1
  | _ => 0

/-- How much `attacker_seq` advances when packet `p` is emitted. -/
def segA (L : SmbLens) (smbVersion hostingVersion : String) (p : Pkt) : ℕ :=
  if p.sender = Sender.attacker then segLen L smbVersion hostingVersion p.kind else 0

/-- How much `victim_seq` advances when packet `p` is emitted. -/
def segV (L : SmbLens) (smbVersion hostingVersion : String) (p : Pkt) : ℕ :=
  if p.sender = Sender.victim then segLen L smbVersion hostingVersion p.kind else 0

/-- Byte-accurate sequence bookkeeping: starting from counters `a`/`v`, every
packet advances the sender's counter by exactly the byte length of the segment
just sent and leaves the other counter unchanged. -/
def SeqAccurate (L : SmbLens) (smbVersion hostingVersion : String) :
    ℕ → ℕ → List Pkt → Prop
  | _, _, [] => True
  | a, v, p :: rest =>
    p.aSeqAfter = a + segA L smbVersion hostingVersion p ∧
    p.vSeqAfter = v + segV L smbVersion hostingVersion p ∧
    SeqAccurate L smbVersion hostingVersion p.aSeqAfter p.vSeqAfter rest

/-- Concrete lens instance used by the witnesses: request framing 4+35 bytes,
one byte per dialect tail, a 4-byte response NetBIOS header, and distinct
legacy/SMB2 response sizes. -/
def witnessLens : SmbLens :=
  ⟨4, 35, 2, fun d => d.length, 4, 90, 64, 101⟩

instance : Inhabited Pkt :=
  ⟨⟨PktKind.syn, "", Sender.attacker, 0, 0, 0, RspShape.legacy, 0, 0⟩⟩

/-- Python `int()` truncation toward zero. -/
def pyInt (q : ℚ) : ℤ := if 0 ≤ q then ⌊q⌋ else ⌈q⌉

/-- Python list slicing `l[:k]` with a possibly negative bound. -/
def pySliceTo {α : Type} (l : List α) (k : ℤ) : List α :=
  if 0 ≤ k then l.take k.toNat else l.take (l.length - (-k).toNat)

/-- A user-facing IP parameter value: either a single string (where the
sentinel "1.1.1.1" means unset, `SMBScanAttack.py` lines 83/102) or a list of
addresses. -/
inductive IpParam
  | str (s : String)
  | listv (l : List String)

/-- The count passed to `get_random_ip_address` (`SMBScanAttack.py`
lines 127-140): the target count capped by the background population, minus
any user-supplied destinations. -/
def requestedRndCount (targetCount ipAddrCount : ℕ) (ipDestParam : IpParam) : ℤ :=
  let c : ℤ := if ipAddrCount < targetCount + 1 then ipAddrCount else targetCount
  match ipDestParam with
  | IpParam.listv l => c - l.length
  | IpParam.str s => if s ≠ "1.1.1.1" then c - 1 else c

/-- Target and hosting selection of `generate_attack_packets`
(`SMBScanAttack.py` lines 133-168).  `rndIps` is the statistics
collaborator's reply to `get_random_ip_address` (line 143).  Returns
`(ip_destinations, hosting_ip)`. -/
def selectTargets (ipDestParam : IpParam) (rndIps : List String) (ipSource : String)
    (hostPct : ℚ) (hostingParam : IpParam) : List String × List String :=
  -- lines 133-140
  let ipDest0 : List String :=
    match ipDestParam with
    | IpParam.listv l => l
    | IpParam.str s => if s ≠ "1.1.1.1" then [s] else []
  -- line 146
  let ipDestinations := ipDest0 ++ rndIps
  -- lines 149-150 (Python list.remove drops the first occurrence)
  let ipDestinations :=
    if ipSource ∈ ipDestinations then ipDestinations.erase ipSource else ipDestinations
  -- lines 154-155
  let rndIpCount : ℚ := (ipDestinations.length : ℚ) * hostPct
  -- lines 158-165
  let p : ℚ × List String :=
    match hostingParam with
    | IpParam.listv l => (rndIpCount - l.length, l)
    | IpParam.str s => if s ≠ "1.1.1.1" then (rndIpCount - 1, [s]) else (rndIpCount, [])
  -- line 167
  (ipDestinations, p.2 ++ pySliceTo ipDestinations (pyInt p.1))

/-- Mirror of `SMBScanAttack.py` lines 193-199: when a destination MAC string was
supplied, the target list is replaced by the addresses the statistics store
knows behind that MAC (`ipFromMac`), or by one freshly generated address when
there are none. -/
def resolveTargets (dests : List String) (macDest : Option String)
    (ipFromMac : List String) (rndAddr : String) : List String :=
  match macDest with
  | some _ => if ipFromMac ≠ [] then ipFromMac else [rndAddr]
  | none => dests

/-- The packet-kind sequence of a full hosting connection: TCP handshake,
SMB negotiation, teardown (`SMBScanAttack.py` lines 256-427). -/
def fullHandshakeKinds : List PktKind :=
  [PktKind.syn, PktKind.synAck, PktKind.hsAck, PktKind.smbReq, PktKind.smbReqAck,
   PktKind.smbRsp, PktKind.smbRspAck, PktKind.finAttacker, PktKind.finVictim,
   PktKind.finalAck]

/-- Mirror of `generate_attack_pcap` (`SMBScanAttack.py` lines 442-455): record the
attack end time as the LAST packet of the emission-order buffer, write the
packets sorted by ascending timestamp through the external
`write_attack_pcap` collaborator `writer`, and return the packet count with
the output location.  The result triple is
`(attack_end_utime, packet count, pcap path)`. -/
def generate_attack_pcap (packets : List Pkt) (writer : List Pkt → String) :
    ℚ × ℕ × String :=
  ((packets.getLastD default).time,
   packets.length,
   writer (packets.mergeSort (fun p q => decide (p.time ≤ q.time))))

end SMBScan

namespace Botnet

/-- The abstract message types of `ID2TLib/Botnet/Message.py` (module not
under `src/`; the enum members are exactly those named in
`CommunicationProcessor.py` lines 187-235). -/
inductive MessageType
  | sality_hello
  | sality_hello_reply
  | sality_nl_request
  | sality_nl_reply
  | timeout
  deriving DecidableEq

/-- Modelled from the spec: the `Message` record of `ID2TLib/Botnet/Message.py`
(not under `src/`): `{id, src_peer, dst_peer, type, time, line_no,
refer_msg_id?}` with `refer_msg_id` defaulting to the unset sentinel -1, as
used positionally at `CommunicationProcessor.py` lines 197, 220 and 233-235. -/
structure Message where
  msg_id : ℕ
  src : ℕ
  dst : ℕ
  type : MessageType
  time : ℚ
  refer_msg_id : ℤ
  line_no : ℤ
  deriving DecidableEq

instance : Inhabited Message :=
  ⟨⟨0, 0, 0, MessageType.sality_hello, 0, -1, -1⟩⟩

/-- One abstract input packet as consumed at `CommunicationProcessor.py`
line 177 (the `mtypes` int-to-enum mapping is already applied). -/
structure AbsPacket where
  src : ℕ
  dst : ℕ
  type : MessageType
  time : ℚ
  lineNo : ℤ

/-- The loop state of `det_id_roles_and_msgs`
(`CommunicationProcessor.py` lines 163-173). -/
structure ProcState where
  msgs : List Message
  msg_id : ℕ
  prev_reqs : ℕ × ℕ → Option ℕ
  req_seen : Bool
  respnd_ids : ℕ → Bool
  external_init_ids : ℕ → Bool

def isRequestType : MessageType → Bool
  | MessageType.sality_hello => true
  | MessageType.sality_nl_request => true
  | _ => false

def isReplyType : MessageType → Bool
  | MessageType.sality_hello_reply => true
  | MessageType.sality_nl_reply => true
  | _ => false

/-- The field `refer_msg_id` viewed as optional: -1 (any negative) means unset. -/
def referN (m : Message) : Option ℕ :=
  if m.refer_msg_id < 0 then none else some m.refer_msg_id.toNat

/-- Message `m` with its reference field replaced. -/
def withRefer (m : Message) (v : ℤ) : Message :=
  ⟨m.msg_id, m.src, m.dst, m.type, m.time, v, m.line_no⟩

/-- Set `msgs[r].refer_msg_id = v` (`CommunicationProcessor.py`
lines 218/231). -/
def setRefer : List Message → ℕ → ℤ → List Message
  | [], _, _ => []
  | m :: rest, 0, v => withRefer m v :: rest
  | m :: rest, r + 1, v => m :: setRefer rest r v

/-- Lines 196-201: append a request message, register it in `prev_reqs` under
the key `(src, dst)` and mark `req_seen`. -/
def appendRequest (st : ProcState) (p : AbsPacket) : ProcState :=
  ⟨st.msgs ++ [⟨st.msg_id, p.src, p.dst, p.type, p.time, -1, p.lineNo⟩],
   st.msg_id + 1,
   fun k => if k = (p.src, p.dst) then some st.msg_id else st.prev_reqs k,
   true, st.respnd_ids, st.external_init_ids⟩

/-- Lines 214-223: look up the pending request under the swapped key
`(dst, src)`; on a hit set its reference to this reply's id and delete the
entry; append the reply with `refer_idx` (-1 on a miss). -/
def appendReply (st : ProcState) (p : AbsPacket) : ProcState :=
  match st.prev_reqs (p.dst, p.src) with
  | some r =>
    ⟨setRefer st.msgs r (st.msg_id : ℤ) ++
       [⟨st.msg_id, p.src, p.dst, p.type, p.time, (r : ℤ), p.lineNo⟩],
     st.msg_id + 1,
     fun k => if k = (p.dst, p.src) then none else st.prev_reqs k,
     st.req_seen, st.respnd_ids, st.external_init_ids⟩
  | none =>
    ⟨st.msgs ++ [⟨st.msg_id, p.src, p.dst, p.type, p.time, -1, p.lineNo⟩],
     st.msg_id + 1, st.prev_reqs, st.req_seen, st.respnd_ids, st.external_init_ids⟩

/-- Lines 225-239: a timeout for a tracked initiator synthesizes an implicit
reply to the pending request, if any; otherwise nothing is recorded. -/
def appendTimeout (st : ProcState) (p : AbsPacket) : ProcState :=
  match st.prev_reqs (p.dst, p.src) with
  | some r =>
    let newType :=
      if (st.msgs.getD r default).type = MessageType.sality_nl_request then
        MessageType.sality_nl_reply
      else MessageType.sality_hello_reply
    ⟨setRefer st.msgs r (st.msg_id : ℤ) ++
       [⟨st.msg_id, p.src, p.dst, newType, p.time, (r : ℤ), p.lineNo⟩],
     st.msg_id + 1,
     fun k => if k = (p.dst, p.src) then none else st.prev_reqs k,
     st.req_seen, st.respnd_ids, st.external_init_ids⟩
  | none => st

def insertB (s : ℕ → Bool) (x : ℕ) : ℕ → Bool :=
  fun y => if y = x then true else s y

/-- One iteration of the packet loop of `det_id_roles_and_msgs`
(`CommunicationProcessor.py` lines 176-239).  `natp` is `self.nat`,
`localInit` is membership in `self.local_init_ids`. -/
def procStep (natp : Bool) (localInit : ℕ → Bool) (st : ProcState) (p : AbsPacket) :
    ProcState :=
  if !(localInit p.src) && !(localInit p.dst) then st            -- lines 180-181
  else if isRequestType p.type then                              -- line 187
    if !natp && localInit p.dst && !(localInit p.src) then       -- line 188
      appendRequest
        ⟨st.msgs, st.msg_id, st.prev_reqs, st.req_seen, st.respnd_ids,
         insertB st.external_init_ids p.src⟩ p
    else if !(localInit p.src) then st                           -- lines 190-191
    else
      appendRequest
        ⟨st.msgs, st.msg_id, st.prev_reqs, st.req_seen,
         insertB st.respnd_ids p.dst, st.external_init_ids⟩ p    -- line 194
  else if isReplyType p.type && st.req_seen then                 -- line 204
    if !natp && localInit p.src && !(localInit p.dst) then       -- line 205
      appendReply
        ⟨st.msgs, st.msg_id, st.prev_reqs, st.req_seen, st.respnd_ids,
         insertB st.external_init_ids p.dst⟩ p
    else if !(localInit p.dst) then st                           -- lines 208-209
    else
      appendReply
        ⟨st.msgs, st.msg_id, st.prev_reqs, st.req_seen,
         insertB st.respnd_ids p.src, st.external_init_ids⟩ p    -- line 212
  else if p.type = MessageType.timeout && localInit p.src && !natp then  -- line 225
    appendTimeout st p
  else st

def initState : ProcState :=
  ⟨[], 0, fun _ => none, false, fun _ => false, fun _ => false⟩

/-- Mirror of `det_id_roles_and_msgs` (`CommunicationProcessor.py` lines 152-247),
returning the filtered message list. -/
def det_id_roles_and_msgs (natp : Bool) (localInit : ℕ → Bool)
    (packets : List AbsPacket) : List Message :=
  (packets.foldl (procStep natp localInit) initState).msgs

/-- The invariant of the `det_id_roles_and_msgs` loop state, over the message
list, the running id counter and the pending-request map. -/
structure InvCore (msgs : List Message) (msgId : ℕ) (preqs : ℕ × ℕ → Option ℕ) :
    Prop where
  len_eq : msgId = msgs.length
  dict_lt : ∀ k r, preqs k = some r → r < msgs.length
  dict_unset : ∀ k r, preqs k = some r → (msgs.getD r default).refer_msg_id = -1
  dict_key : ∀ k r, preqs k = some r →
    ((msgs.getD r default).src, (msgs.getD r default).dst) = k
  dict_req : ∀ k r, preqs k = some r → isRequestType (msgs.getD r default).type = true
  pair : ∀ i j, i < msgs.length → referN (msgs.getD i default) = some j →
    j < msgs.length ∧ i ≠ j ∧ referN (msgs.getD j default) = some i ∧
    (i < j → isRequestType (msgs.getD i default).type = true ∧
      isReplyType (msgs.getD j default).type = true)

def Inv (st : ProcState) : Prop := InvCore st.msgs st.msg_id st.prev_reqs

def c6State : ProcState :=
  ⟨[⟨0, 1, 2, MessageType.sality_hello, 0, -1, 1⟩], 1,
   fun k => if k = (1, 2) then some 0 else none, true, fun n => n == 2,
   fun _ => false⟩

/-- A communication interval as returned by the C++ interval finder:
the `{IDs, Start, End}` dict of `CommunicationProcessor.py` lines 100-139. -/
structure Interval where
  ids : List ℕ
  start : ℕ
  stop : ℕ
  deriving DecidableEq

/-- Python truthiness of `self.interval and self.interval["IDs"]`
(lines 110, 117 and 141): a non-None interval holding a nonempty ID list. -/
def intervalTruthy : Option Interval → Bool
  | some iv => !iv.ids.isEmpty
  | none => false

/-- The random-strategy retry loop (lines 107-111): up to five iterations,
each storing its attempt's result in `self.interval` and breaking early on a
truthy one. -/
def runRandomAttempts :
    ℕ → Option Interval → List (Option Interval) → Option Interval
  | 0, cur, _ => cur
  | _ + 1, cur, [] => cur
  | n + 1, _, a :: rest => if intervalTruthy a then a else runRandomAttempts n a rest

/-- Modelled from the spec: `find_interval_from_startidx` lives in the C++
`libbotnetcomm` helper, which is not under `src/`; the per-attempt results it
returns for the five random start indices are supplied as the oracle list
`attempts`.  This is `get_comm_interval` for strategy "random"
(lines 105-111 plus the final emptiness check of lines 141-142, which maps a
falsy result to the explicit empty dict, modelled as `none`). -/
def get_comm_interval_random (attempts : List (Option Interval)) : Option Interval :=
  if intervalTruthy (runRandomAttempts 5 none attempts) then
    runRandomAttempts 5 none attempts
  else none

/-- Mirror of `get_comm_interval` for strategy "custom" with both indices supplied
(lines 134-139 plus 141-142).  `initIds` is the oracle result of the C++
`get_interval_init_ids`; a nonempty result is accepted as-is, regardless of
the configured `number_ids`. -/
def get_comm_interval_custom_both (startIdx endIdx : ℕ) (initIds : List ℕ) :
    Option Interval :=
  let iv : Option Interval :=
    if initIds ≠ [] then some ⟨initIds, startIdx - 1, endIdx - 1⟩ else none
  if intervalTruthy iv then iv else none

/-- The ID-truncation loop of `get_messages` (lines 261-263): while more than
`n` ids remain, delete the id at a random index.  `rs` is the random-index
oracle (each draw taken modulo the current length, the range `randrange`
draws from); the fuel equals the initial length, which bounds the loop since
every iteration removes exactly one element. -/
def truncateGo : ℕ → List ℕ → List ℕ → ℕ → List ℕ
  | 0, _, ids, _ => ids
  | fuel + 1, rs, ids, n =>
    if n < ids.length then
      truncateGo fuel rs.tail (ids.eraseIdx (rs.headI % ids.length)) n
    else ids

def truncateIds (rs ids : List ℕ) (n : ℕ) : List ℕ :=
  truncateGo ids.length rs ids n

end Botnet

namespace Controller

/-- The per-attack seed assignment of `process_attacks`
(`Core/Controller.py` lines 83-86): `seeds[i][0]` when the explicit seed list
covers attack `i` (`len(seeds) > i`), otherwise a fresh draw from the secure
random source (`os.urandom`), modelled as the oracle `urandom` indexed by the
number of draws made so far. -/
def rngSeed (seeds : Option (List (List ℕ))) (urandom : ℕ → ℕ) (i : ℕ) : ℕ :=
  match seeds with
  | some l => if i < l.length then (l.getD i []).headI else urandom (i - l.length)
  | none => urandom i

/-- How many times the secure random source is consulted over `count`
attacks: exactly the attacks not covered by the explicit seed list. -/
def urandomDraws (seeds : Option (List (List ℕ))) (count : ℕ) : ℕ :=
  match seeds with
  | some l => count - l.length
  | none => count

/-- The sequential attack loop of `process_attacks` (lines 81-94), producing
`self.written_pcaps`.  Modelled from the spec:
`AttackController.process_attack` is not under `src/`; per the spec it runs
synthesis with reproducible seeding, so it is modelled as the deterministic
collaborator function `procAttack` of the configuration and the seed. -/
def writtenPcaps {A Out : Type} (procAttack : A → ℕ → Out)
    (seeds : Option (List (List ℕ))) (urandom : ℕ → ℕ) :
    List A → ℕ → List Out
  | [], _ => []
  | c :: cs, i =>
    procAttack c (rngSeed seeds urandom i) ::
      writtenPcaps procAttack seeds urandom cs (i + 1)

/-- The pairwise merge loop of lines 99-109: `written_pcaps[i]` is merged
into `written_pcaps[i+1]` left to right; a single output is passed through;
no output yields `none` ("no packets were injected").  `mergeAtk` is the
external `PcapFile.merge_attack` collaborator. -/
def mergeWritten {Out : Type} (mergeAtk : Out → Out → Out) : List Out → Option Out
  | [] => none
  | w :: ws => some (ws.foldl mergeAtk w)

/-- Mirror of `process_attacks` (`Core/Controller.py` lines 66-109): run the configured
attacks sequentially with their assigned seeds and merge the outputs into the
single attack artifact. -/
def process_attacks {A Out : Type} (procAttack : A → ℕ → Out)
    (mergeAtk : Out → Out → Out) (cfgs : List A)
    (seeds : Option (List (List ℕ))) (urandom : ℕ → ℕ) : Option Out :=
  mergeWritten mergeAtk (writtenPcaps procAttack seeds urandom cfgs 0)

end Controller

namespace SMBScan

theorem smbConnPackets_seqAccurate (smbVersion hostingVersion : String) (L : SmbLens)
    (hosting : Bool) (ip : String) (a0 v0 : ℕ) (tnp : ℚ) (ds : List ℚ) :
    SeqAccurate L smbVersion hostingVersion a0 v0
      (smbConnPackets smbVersion hostingVersion L hosting ip a0 v0 tnp ds).1 := by
  cases hosting <;>
    simp [smbConnPackets, SeqAccurate, segA, segV, segLen]

theorem seqAccurate_chain (L : SmbLens) (smbVersion hostingVersion : String) :
    ∀ (ps : List Pkt) (a v : ℕ), SeqAccurate L smbVersion hostingVersion a v ps →
      List.Chain' (· ≤ ·) (a :: ps.map Pkt.aSeqAfter) ∧
      List.Chain' (· ≤ ·) (v :: ps.map Pkt.vSeqAfter)
  | [], _, _, _ => by simp
  | p :: rest, a, v, h => by
    obtain ⟨ha, hv, hrest⟩ := h
    obtain ⟨ca, cv⟩ := seqAccurate_chain L smbVersion hostingVersion rest
      p.aSeqAfter p.vSeqAfter hrest
    refine ⟨?_, ?_⟩ <;> rw [List.map_cons, List.chain'_cons'] <;>
      constructor
    · intro y hy
      rw [List.head?_cons] at hy
      cases hy
      omega
    · exact ca
    · intro y hy
      rw [List.head?_cons] at hy
      cases hy
      omega
    · exact cv

/-- C1.  For every connection synthesized by `generate_attack_packets` (every
entry of the target loop), the `attacker_seq` and `victim_seq` counters are
monotonically non-decreasing across the packets emitted for that connection,
and each increase equals exactly the byte length of the segment just sent
(1 for SYN and FIN, the NetBIOS+SMB framing-plus-payload byte length for the
negotiation request and response, 0 for pure ACKs). -/
theorem claim_c1_seq_counters (smbVersion hostingVersion : String) (L : SmbLens)
    (ipSource : String) (hostingIps : List String) (seqO : ℕ → ℕ × ℕ)
    (ips : List String) (tnp : ℚ) (ds : List ℚ) (k : ℕ) :
    ∀ e ∈ attackConns smbVersion hostingVersion L ipSource hostingIps seqO ips tnp ds k,
      SeqAccurate L smbVersion hostingVersion e.a0 e.v0 e.pkts ∧
      List.Chain' (· ≤ ·) (e.a0 :: e.pkts.map Pkt.aSeqAfter) ∧
      List.Chain' (· ≤ ·) (e.v0 :: e.pkts.map Pkt.vSeqAfter) := by
  induction ips generalizing tnp ds k with
  | nil => intro e he; simp [attackConns] at he
  | cons ip rest ih =>
    intro e he
    rw [attackConns] at he
    by_cases hsrc : ip = ipSource
    · rw [if_pos hsrc] at he
      exact ih _ _ _ e he
    · rw [if_neg hsrc] at he
      rcases List.mem_cons.mp he with h | h
      · subst h
        refine ⟨?_, ?_, ?_⟩
        · exact smbConnPackets_seqAccurate smbVersion hostingVersion L _ ip _ _ tnp ds
        · exact (seqAccurate_chain L smbVersion hostingVersion _ _ _
            (smbConnPackets_seqAccurate smbVersion hostingVersion L _ ip _ _ tnp ds)).1
        · exact (seqAccurate_chain L smbVersion hostingVersion _ _ _
            (smbConnPackets_seqAccurate smbVersion hostingVersion L _ ip _ _ tnp ds)).2
      · exact ih _ _ _ e h

theorem claim_c1_seq_counters_witness :
    SeqAccurate witnessLens "1" "1"
      (ConnEntry.mk "10.0.0.2" 7 11 (smbConnPackets "1" "1" witnessLens true "10.0.0.2" 7 11 0 [1]).1).a0
      (ConnEntry.mk "10.0.0.2" 7 11 (smbConnPackets "1" "1" witnessLens true "10.0.0.2" 7 11 0 [1]).1).v0
      (ConnEntry.mk "10.0.0.2" 7 11 (smbConnPackets "1" "1" witnessLens true "10.0.0.2" 7 11 0 [1]).1).pkts ∧
    List.Chain' (· ≤ ·) (7 :: (smbConnPackets "1" "1" witnessLens true "10.0.0.2" 7 11 0 [1]).1.map Pkt.aSeqAfter) ∧
    List.Chain' (· ≤ ·) (11 :: (smbConnPackets "1" "1" witnessLens true "10.0.0.2" 7 11 0 [1]).1.map Pkt.vSeqAfter) :=
  claim_c1_seq_counters "1" "1" witnessLens "10.0.0.1" ["10.0.0.2"]
    (fun _ => (7, 11)) ["10.0.0.2"] 0 [1] 0
    (ConnEntry.mk "10.0.0.2" 7 11 (smbConnPackets "1" "1" witnessLens true "10.0.0.2" 7 11 0 [1]).1)
    (by simp [attackConns, smbConnPackets])

/-- C4.  When `protocol.version` is "1", the negotiation request uses the
reduced 6-entry dialect list and the response uses the legacy SMB1 header
shape (for any hosting version); when `protocol.version` is "2" and
`hosting.version` is not "1", the response uses the extended SMB2
capability/security-blob shape, and the victim sequence counter additionally
advances by that body's length: across the hosting trace `victim_seq` steps
from `v0+1` to `v0+1 + (NetBIOS + SMB2 header + SMB2 negotiate body)` at the
response packet. -/
theorem claim_c4_version_shapes (hostingVersion anyHv : String) (L : SmbLens)
    (ip : String) (a0 v0 : ℕ) (tnp : ℚ) (ds : List ℚ)
    (hhv : hostingVersion ≠ "1") :
    smbReqDialects "1" = smb_dialects.take 6 ∧
    (smbReqDialects "1").length = 6 ∧
    smbRspShape "1" anyHv = RspShape.legacy ∧
    ((smbConnPackets "1" anyHv L true ip a0 v0 tnp ds).1.getD 5 default).shape
      = RspShape.legacy ∧
    smbRspShape "2" hostingVersion = RspShape.smb2 ∧
    ((smbConnPackets "2" hostingVersion L true ip a0 v0 tnp ds).1.getD 5 default).shape
      = RspShape.smb2 ∧
    ((smbConnPackets "2" hostingVersion L true ip a0 v0 tnp ds).1.map Pkt.vSeqAfter)
      = [v0, v0 + 1, v0 + 1, v0 + 1, v0 + 1,
         v0 + 1 + (L.rspNetBioLen + (L.smb2HdrLen + L.smb2BodyLen)),
         v0 + 1 + (L.rspNetBioLen + (L.smb2HdrLen + L.smb2BodyLen)),
         v0 + 1 + (L.rspNetBioLen + (L.smb2HdrLen + L.smb2BodyLen)),
         v0 + 1 + (L.rspNetBioLen + (L.smb2HdrLen + L.smb2BodyLen)) + 1,
         v0 + 1 + (L.rspNetBioLen + (L.smb2HdrLen + L.smb2BodyLen)) + 1] := by
  have h2 : ("2" : String) ≠ "1" := by decide
  refine ⟨rfl, rfl, ?_, ?_, ?_, ?_, ?_⟩
  · simp [smbRspShape]
  · simp [smbConnPackets, smbRspShape]
  · simp [smbRspShape, h2, hhv]
  · simp [smbConnPackets, smbRspShape, h2, hhv]
  · simp [smbConnPackets, smbRspSegLen, smbRspLen, smbRspShape, h2, hhv]

theorem claim_c4_version_shapes_witness :
    smbReqDialects "1" = smb_dialects.take 6 ∧
    (smbReqDialects "1").length = 6 ∧
    smbRspShape "1" "1" = RspShape.legacy ∧
    ((smbConnPackets "1" "1" witnessLens true "10.0.0.2" 7 11 0 [1]).1.getD 5 default).shape
      = RspShape.legacy ∧
    smbRspShape "2" "2" = RspShape.smb2 ∧
    ((smbConnPackets "2" "2" witnessLens true "10.0.0.2" 7 11 0 [1]).1.getD 5 default).shape
      = RspShape.smb2 ∧
    ((smbConnPackets "2" "2" witnessLens true "10.0.0.2" 7 11 0 [1]).1.map Pkt.vSeqAfter)
      = [11, 11 + 1, 11 + 1, 11 + 1, 11 + 1,
         11 + 1 + (witnessLens.rspNetBioLen + (witnessLens.smb2HdrLen + witnessLens.smb2BodyLen)),
         11 + 1 + (witnessLens.rspNetBioLen + (witnessLens.smb2HdrLen + witnessLens.smb2BodyLen)),
         11 + 1 + (witnessLens.rspNetBioLen + (witnessLens.smb2HdrLen + witnessLens.smb2BodyLen)),
         11 + 1 + (witnessLens.rspNetBioLen + (witnessLens.smb2HdrLen + witnessLens.smb2BodyLen)) + 1,
         11 + 1 + (witnessLens.rspNetBioLen + (witnessLens.smb2HdrLen + witnessLens.smb2BodyLen)) + 1] :=
  claim_c4_version_shapes "2" "1" witnessLens "10.0.0.2" 7 11 0 [1] (by decide)

/-- C2 counterexample.  A concrete two-target run (first target hosting with
unit latencies, then zero latencies) in which the packet timestamps are not
non-decreasing in emission order: the loop pins the cursor back to the
connection's start time `timestamp_next_pkt` (line 439) before drawing the
next connection's start, so the second connection's SYN (time 0) precedes the
first connection's teardown packets (times up to 9). -/
theorem claim_c2_counterexample :
    ((attackRun "1" "1" witnessLens "10.0.0.1" ["10.0.0.2"] (fun _ => (0, 0))
        ["10.0.0.2", "10.0.0.3"] 0 [1, 1, 1, 1, 1, 1, 1, 1, 1, 0, 0, 0]).map Pkt.time)
      = [0, 1, 2, 3, 4, 5, 6, 7, 8, 9, 0, 0] ∧
    ¬ List.Chain' (fun p q : Pkt => p.time ≤ q.time)
      (attackRun "1" "1" witnessLens "10.0.0.1" ["10.0.0.2"] (fun _ => (0, 0))
        ["10.0.0.2", "10.0.0.3"] 0 [1, 1, 1, 1, 1, 1, 1, 1, 1, 0, 0, 0]) := by
  have hmap : ((attackRun "1" "1" witnessLens "10.0.0.1" ["10.0.0.2"] (fun _ => (0, 0))
      ["10.0.0.2", "10.0.0.3"] 0 [1, 1, 1, 1, 1, 1, 1, 1, 1, 0, 0, 0]).map Pkt.time)
      = [0, 1, 2, 3, 4, 5, 6, 7, 8, 9, 0, 0] := by
    simp [attackRun, attackConns, smbConnPackets, List.getD_cons_zero, List.getD_cons_succ]
    norm_num
  refine ⟨hmap, fun hch => ?_⟩
  rw [← List.chain'_map Pkt.time, hmap] at hch
  simp only [List.chain'_cons, List.chain'_singleton, and_true] at hch
  norm_num at hch

/-- C2 amended.  Within a single connection the timestamps obtained from the
timestamp controller are non-decreasing in emission order (every delay drawn
is non-negative), every packet of the connection is at or after the
connection's start time, and the per-connection start times
`timestamp_next_pkt` are non-decreasing from one loop iteration to the next;
but a later connection's start may precede the previous connection's final
packets (which `generate_attack_pcap` compensates for by sorting). -/
theorem claim_c2_amended (smbVersion hostingVersion : String) (L : SmbLens)
    (hosting : Bool) (ip : String) (a0 v0 : ℕ) (tnp : ℚ) (ds : List ℚ)
    (hds : ∀ q ∈ ds, 0 ≤ q) :
    List.Chain' (fun p q : Pkt => p.time ≤ q.time)
      (smbConnPackets smbVersion hostingVersion L hosting ip a0 v0 tnp ds).1 ∧
    (∀ p ∈ (smbConnPackets smbVersion hostingVersion L hosting ip a0 v0 tnp ds).1,
      tnp ≤ p.time) ∧
    tnp ≤ (smbConnPackets smbVersion hostingVersion L hosting ip a0 v0 tnp ds).2.1 := by
  have h : ∀ i : ℕ, 0 ≤ ds[i]?.getD 0 := by
    intro i
    by_cases hi : i < ds.length
    · rw [List.getElem?_eq_getElem hi, Option.getD_some]
      exact hds _ (List.getElem_mem hi)
    · rw [List.getElem?_eq_none (Nat.le_of_not_lt hi), Option.getD_none]
  cases hosting <;>
    · simp [smbConnPackets, List.chain'_cons]
      and_intros <;>
        linarith [h 0, h 1, h 2, h 3, h 4, h 5, h 6, h 7, h 8, h 9]

theorem claim_c2_amended_witness :
    List.Chain' (fun p q : Pkt => p.time ≤ q.time)
      (smbConnPackets "1" "1" witnessLens true "10.0.0.2" 7 11 0
        [1, 1, 1, 1, 1, 1, 1, 1, 1, 1]).1 ∧
    (∀ p ∈ (smbConnPackets "1" "1" witnessLens true "10.0.0.2" 7 11 0
        [1, 1, 1, 1, 1, 1, 1, 1, 1, 1]).1, (0 : ℚ) ≤ p.time) ∧
    (0 : ℚ) ≤ (smbConnPackets "1" "1" witnessLens true "10.0.0.2" 7 11 0
        [1, 1, 1, 1, 1, 1, 1, 1, 1, 1]).2.1 :=
  claim_c2_amended "1" "1" witnessLens true "10.0.0.2" 7 11 0
    [1, 1, 1, 1, 1, 1, 1, 1, 1, 1] (by decide)

theorem smbConnPackets_kinds (smbVersion hostingVersion : String) (L : SmbLens)
    (b : Bool) (ip : String) (a0 v0 : ℕ) (tnp : ℚ) (ds : List ℚ) :
    (smbConnPackets smbVersion hostingVersion L b ip a0 v0 tnp ds).1.map Pkt.kind
      = if b then fullHandshakeKinds else [PktKind.syn, PktKind.rst] := by
  cases b <;> simp [smbConnPackets, fullHandshakeKinds]

theorem attackConns_ips_kinds (smbVersion hostingVersion : String) (L : SmbLens)
    (ipSource : String) (hostingIps : List String) (seqO : ℕ → ℕ × ℕ) :
    ∀ (ips : List String) (tnp : ℚ) (ds : List ℚ) (k : ℕ), ipSource ∉ ips →
      (attackConns smbVersion hostingVersion L ipSource hostingIps seqO
        ips tnp ds k).map ConnEntry.ip = ips ∧
      ∀ e ∈ attackConns smbVersion hostingVersion L ipSource hostingIps seqO ips tnp ds k,
        (e.ip ∈ hostingIps → e.pkts.map Pkt.kind = fullHandshakeKinds) ∧
        (e.ip ∉ hostingIps → e.pkts.map Pkt.kind = [PktKind.syn, PktKind.rst])
  | [], _, _, _, _ => by simp [attackConns]
  | ip :: rest, tnp, ds, k, hs => by
    have hne : ¬ ip = ipSource := fun h => hs (h ▸ List.mem_cons_self ip rest)
    have hrest := attackConns_ips_kinds smbVersion hostingVersion L ipSource hostingIps
      seqO rest ((smbConnPackets smbVersion hostingVersion L
        (decide (ip ∈ hostingIps)) ip (seqO k).1 (seqO k).2 tnp ds).2.1)
      ((smbConnPackets smbVersion hostingVersion L
        (decide (ip ∈ hostingIps)) ip (seqO k).1 (seqO k).2 tnp ds).2.2)
      (k + 1) (fun h => hs (List.mem_cons_of_mem _ h))
    rw [attackConns, if_neg hne]
    constructor
    · simpa using hrest.1
    · intro e he
      rcases List.mem_cons.mp he with h | h
      · subst h
        by_cases hm : ip ∈ hostingIps <;>
          · constructor <;> intro hm2 <;> simp at hm2 ⊢ <;>
              rw [smbConnPackets_kinds] <;>
                first
                  | exact absurd hm hm2
                  | exact absurd hm2 hm
                  | simp [hm]
      · exact hrest.2 e h

theorem countP_take_drop {l : List String} {n m : ℕ} (hnd : l.Nodup)
    (hlen : l.length = m + n) (hn : (l.take n).length = n) :
    l.countP (fun s => decide (s ∈ l.take n)) = n ∧
    l.countP (fun s => decide (s ∉ l.take n)) = m := by
  have hdisj : List.Disjoint (l.take n) (l.drop n) :=
    List.disjoint_take_drop hnd (le_refl n)
  have hdroplen : (l.drop n).length = m := by
    rw [List.length_drop, hlen]
    omega
  have split : ∀ p : String → Bool,
      l.countP p = (l.take n).countP p + (l.drop n).countP p := by
    intro p
    conv_lhs => rw [← List.take_append_drop n l]
    rw [List.countP_append]
  have h1 : (l.take n).countP (fun s => decide (s ∈ l.take n)) = n := by
    have hh : ∀ a ∈ l.take n, (fun s => decide (s ∈ l.take n)) a = true := by
      intro a ha
      simpa using ha
    rw [List.countP_eq_length.mpr hh]
    exact hn
  have h2 : (l.drop n).countP (fun s => decide (s ∈ l.take n)) = 0 := by
    apply List.countP_eq_zero.mpr
    intro a ha
    simp only [decide_eq_true_eq]
    exact fun hmem => hdisj hmem ha
  have h3 : (l.take n).countP (fun s => decide (s ∉ l.take n)) = 0 := by
    apply List.countP_eq_zero.mpr
    intro a ha
    simp only [decide_eq_true_eq]
    exact fun hcon => hcon ha
  have h4 : (l.drop n).countP (fun s => decide (s ∉ l.take n)) = m := by
    have hh : ∀ a ∈ l.drop n, (fun s => decide (s ∉ l.take n)) a = true := by
      intro a ha
      simp only [decide_eq_true_eq]
      exact fun hmem => hdisj hmem ha
    rw [List.countP_eq_length.mpr hh]
    exact hdroplen
  refine ⟨?_, ?_⟩
  · rw [split _, h1, h2]
    omega
  · rw [split _, h3, h4]
    omega

/-- C3.  With `target.count = 10`, `hosting.percentage = 0.5`, default
(sentinel) destination and hosting parameters, and a background population
large enough (at least 11 addresses, so the statistics store supplies 10
distinct random targets not containing the source), `generate_attack_packets`
selects exactly 5 hosting peers (the first half of the pre-shuffle target
list); each hosting peer receives the full handshake + SMB negotiation +
teardown sequence of 10 (hence at least 9) packets, while each of the
remaining 5 targets receives exactly one RST packet. -/
theorem claim_c3_scenario_a (smbVersion hostingVersion : String) (L : SmbLens)
    (seqO : ℕ → ℕ × ℕ) (rndIps shuffled : List String) (ipSource : String)
    (ipAddrCount : ℕ) (tnp : ℚ) (ds : List ℚ)
    (hn : 11 ≤ ipAddrCount) (hlen : rndIps.length = 10) (hnd : rndIps.Nodup)
    (hsrc : ipSource ∉ rndIps)
    (hperm : shuffled.Perm (resolveTargets
      (selectTargets (IpParam.str "1.1.1.1") rndIps ipSource (1/2)
        (IpParam.str "1.1.1.1")).1 none [] "0.0.0.0")) :
    requestedRndCount 10 ipAddrCount (IpParam.str "1.1.1.1") = 10 ∧
    (selectTargets (IpParam.str "1.1.1.1") rndIps ipSource (1/2)
      (IpParam.str "1.1.1.1")).2 = rndIps.take 5 ∧
    (rndIps.take 5).length = 5 ∧
    (attackConns smbVersion hostingVersion L ipSource (rndIps.take 5) seqO
      shuffled tnp ds 0).length = 10 ∧
    (attackConns smbVersion hostingVersion L ipSource (rndIps.take 5) seqO
      shuffled tnp ds 0).countP (fun e => decide (e.ip ∈ rndIps.take 5)) = 5 ∧
    (attackConns smbVersion hostingVersion L ipSource (rndIps.take 5) seqO
      shuffled tnp ds 0).countP (fun e => decide (e.ip ∉ rndIps.take 5)) = 5 ∧
    ∀ e ∈ attackConns smbVersion hostingVersion L ipSource (rndIps.take 5) seqO
        shuffled tnp ds 0,
      (e.ip ∈ rndIps.take 5 →
        e.pkts.map Pkt.kind = fullHandshakeKinds ∧ 9 ≤ e.pkts.length) ∧
      (e.ip ∉ rndIps.take 5 →
        e.pkts.map Pkt.kind = [PktKind.syn, PktKind.rst] ∧
        e.pkts.countP (fun p => decide (p.kind = PktKind.rst)) = 1) := by
  have htak : (rndIps.take 5).length = 5 := by
    rw [List.length_take, hlen]
    omega
  have hdests : (selectTargets (IpParam.str "1.1.1.1") rndIps ipSource (1/2)
      (IpParam.str "1.1.1.1")).1 = rndIps := by
    simp [selectTargets, hsrc]
  have hhost : (selectTargets (IpParam.str "1.1.1.1") rndIps ipSource (1/2)
      (IpParam.str "1.1.1.1")).2 = rndIps.take 5 := by
    simp only [selectTargets, ne_eq, not_true_eq_false, if_false, List.nil_append,
      if_neg hsrc]
    have : ((rndIps.length : ℚ) * (1 / 2)) = 5 := by
      rw [hlen]
      norm_num
    rw [this]
    have : pyInt 5 = 5 := by
      simp [pyInt]
    rw [this]
    simp [pySliceTo]
  have hperm2 : shuffled.Perm rndIps := by
    rw [resolveTargets, hdests] at hperm
    exact hperm
  have hsrcsh : ipSource ∉ shuffled := fun h => hsrc (hperm2.mem_iff.mp h)
  obtain ⟨hips, hkinds⟩ := attackConns_ips_kinds smbVersion hostingVersion L ipSource
    (rndIps.take 5) seqO shuffled tnp ds 0 hsrcsh
  have hconnlen : (attackConns smbVersion hostingVersion L ipSource (rndIps.take 5) seqO
      shuffled tnp ds 0).length = 10 := by
    have := congrArg List.length hips
    rw [List.length_map] at this
    rw [this, hperm2.length_eq, hlen]
  obtain ⟨hc1, hc2⟩ := countP_take_drop (n := 5) (m := 5) hnd (by omega) htak
  have hcount1 : (attackConns smbVersion hostingVersion L ipSource (rndIps.take 5) seqO
      shuffled tnp ds 0).countP (fun e => decide (e.ip ∈ rndIps.take 5)) = 5 := by
    have hm := List.countP_map (fun s => decide (s ∈ rndIps.take 5)) ConnEntry.ip
      (attackConns smbVersion hostingVersion L ipSource (rndIps.take 5) seqO
        shuffled tnp ds 0)
    rw [hips, hperm2.countP_eq _, hc1] at hm
    exact hm.symm
  have hcount2 : (attackConns smbVersion hostingVersion L ipSource (rndIps.take 5) seqO
      shuffled tnp ds 0).countP (fun e => decide (e.ip ∉ rndIps.take 5)) = 5 := by
    have hm := List.countP_map (fun s => decide (s ∉ rndIps.take 5)) ConnEntry.ip
      (attackConns smbVersion hostingVersion L ipSource (rndIps.take 5) seqO
        shuffled tnp ds 0)
    rw [hips, hperm2.countP_eq _, hc2] at hm
    exact hm.symm
  refine ⟨?_, hhost, htak, hconnlen, hcount1, hcount2, ?_⟩
  · rw [requestedRndCount]
    have : ¬ ipAddrCount < 10 + 1 := by omega
    simp [this]
  · intro e he
    obtain ⟨hin, hout⟩ := hkinds e he
    constructor
    · intro hm
      refine ⟨hin hm, ?_⟩
      have := congrArg List.length (hin hm)
      rw [List.length_map] at this
      rw [this]
      norm_num [fullHandshakeKinds]
    · intro hm
      refine ⟨hout hm, ?_⟩
      have hm2 := List.countP_map (fun kv => decide (kv = PktKind.rst)) Pkt.kind e.pkts
      rw [hout hm] at hm2
      have h1 : List.countP ((fun kv => decide (kv = PktKind.rst)) ∘ Pkt.kind) e.pkts = 1 := by
        rw [← hm2]
        decide
      exact h1

theorem claim_c3_scenario_a_witness :
    requestedRndCount 10 11 (IpParam.str "1.1.1.1") = 10 ∧
    (selectTargets (IpParam.str "1.1.1.1")
      ["h0", "h1", "h2", "h3", "h4", "n0", "n1", "n2", "n3", "n4"] "src" (1/2)
      (IpParam.str "1.1.1.1")).2
      = ["h0", "h1", "h2", "h3", "h4", "n0", "n1", "n2", "n3", "n4"].take 5 ∧
    ((["h0", "h1", "h2", "h3", "h4", "n0", "n1", "n2", "n3", "n4"] : List String).take 5).length = 5 ∧
    (attackConns "1" "1" witnessLens "src"
      (["h0", "h1", "h2", "h3", "h4", "n0", "n1", "n2", "n3", "n4"].take 5)
      (fun _ => (1000, 2000))
      ["n4", "n3", "n2", "n1", "n0", "h4", "h3", "h2", "h1", "h0"] 0 [] 0).length = 10 ∧
    (attackConns "1" "1" witnessLens "src"
      (["h0", "h1", "h2", "h3", "h4", "n0", "n1", "n2", "n3", "n4"].take 5)
      (fun _ => (1000, 2000))
      ["n4", "n3", "n2", "n1", "n0", "h4", "h3", "h2", "h1", "h0"] 0 [] 0).countP
        (fun e => decide (e.ip ∈ ["h0", "h1", "h2", "h3", "h4", "n0", "n1", "n2", "n3", "n4"].take 5)) = 5 ∧
    (attackConns "1" "1" witnessLens "src"
      (["h0", "h1", "h2", "h3", "h4", "n0", "n1", "n2", "n3", "n4"].take 5)
      (fun _ => (1000, 2000))
      ["n4", "n3", "n2", "n1", "n0", "h4", "h3", "h2", "h1", "h0"] 0 [] 0).countP
        (fun e => decide (e.ip ∉ ["h0", "h1", "h2", "h3", "h4", "n0", "n1", "n2", "n3", "n4"].take 5)) = 5 ∧
    ∀ e ∈ attackConns "1" "1" witnessLens "src"
        (["h0", "h1", "h2", "h3", "h4", "n0", "n1", "n2", "n3", "n4"].take 5)
        (fun _ => (1000, 2000))
        ["n4", "n3", "n2", "n1", "n0", "h4", "h3", "h2", "h1", "h0"] 0 [] 0,
      (e.ip ∈ ["h0", "h1", "h2", "h3", "h4", "n0", "n1", "n2", "n3", "n4"].take 5 →
        e.pkts.map Pkt.kind = fullHandshakeKinds ∧ 9 ≤ e.pkts.length) ∧
      (e.ip ∉ ["h0", "h1", "h2", "h3", "h4", "n0", "n1", "n2", "n3", "n4"].take 5 →
        e.pkts.map Pkt.kind = [PktKind.syn, PktKind.rst] ∧
        e.pkts.countP (fun p => decide (p.kind = PktKind.rst)) = 1) :=
  claim_c3_scenario_a "1" "1" witnessLens (fun _ => (1000, 2000))
    ["h0", "h1", "h2", "h3", "h4", "n0", "n1", "n2", "n3", "n4"]
    ["n4", "n3", "n2", "n1", "n0", "h4", "h3", "h2", "h1", "h0"]
    "src" 11 0 []
    (by decide) (by decide) (by decide) (by decide) (by decide)

/-- C10.  `generate_attack_pcap` writes the accumulated packets sorted by
ascending timestamp (a time-ordered permutation of the emission buffer),
sets the attack end time to the timestamp of the last packet in EMISSION
order, and returns the total packet count together with the output
location. -/
theorem claim_c10_pcap_output (packets : List Pkt) (writer : List Pkt → String)
    (h : packets ≠ []) :
    List.Pairwise (fun p q : Pkt => p.time ≤ q.time)
      (packets.mergeSort (fun p q => decide (p.time ≤ q.time))) ∧
    (packets.mergeSort (fun p q => decide (p.time ≤ q.time))).Perm packets ∧
    (generate_attack_pcap packets writer).1 = (packets.getLast h).time ∧
    (generate_attack_pcap packets writer).2.1 = packets.length ∧
    (generate_attack_pcap packets writer).2.2
      = writer (packets.mergeSort (fun p q => decide (p.time ≤ q.time))) := by
  refine ⟨?_, List.mergeSort_perm packets _, ?_, rfl, rfl⟩
  · have hs : (packets.mergeSort (fun p q : Pkt => decide (p.time ≤ q.time))).Pairwise
        (fun p q : Pkt => decide (p.time ≤ q.time)) :=
      List.sorted_mergeSort
        (fun a b c hab hbc => by
          simp only [decide_eq_true_eq] at hab hbc ⊢
          exact le_trans hab hbc)
        (fun a b => by
          simp only [Bool.or_eq_true, decide_eq_true_eq]
          exact le_total a.time b.time)
        packets
    exact hs.imp (fun hb => by simpa using hb)
  · unfold generate_attack_pcap
    simp only []
    rw [List.getLastD_eq_getLast?, List.getLast?_eq_getLast packets h]
    rfl

theorem claim_c10_pcap_output_witness :
    List.Pairwise (fun p q : Pkt => p.time ≤ q.time)
      (([⟨PktKind.syn, "a", Sender.attacker, 0, 0, 3, RspShape.legacy, 1, 0⟩,
         ⟨PktKind.rst, "a", Sender.victim, 0, 1, 1, RspShape.legacy, 1, 0⟩] :
        List Pkt).mergeSort (fun p q => decide (p.time ≤ q.time))) ∧
    (([⟨PktKind.syn, "a", Sender.attacker, 0, 0, 3, RspShape.legacy, 1, 0⟩,
       ⟨PktKind.rst, "a", Sender.victim, 0, 1, 1, RspShape.legacy, 1, 0⟩] :
      List Pkt).mergeSort (fun p q => decide (p.time ≤ q.time))).Perm
      [⟨PktKind.syn, "a", Sender.attacker, 0, 0, 3, RspShape.legacy, 1, 0⟩,
       ⟨PktKind.rst, "a", Sender.victim, 0, 1, 1, RspShape.legacy, 1, 0⟩] ∧
    (generate_attack_pcap
      [⟨PktKind.syn, "a", Sender.attacker, 0, 0, 3, RspShape.legacy, 1, 0⟩,
       ⟨PktKind.rst, "a", Sender.victim, 0, 1, 1, RspShape.legacy, 1, 0⟩]
      (fun _ => "out.pcap")).1
      = (([⟨PktKind.syn, "a", Sender.attacker, 0, 0, 3, RspShape.legacy, 1, 0⟩,
           ⟨PktKind.rst, "a", Sender.victim, 0, 1, 1, RspShape.legacy, 1, 0⟩] :
          List Pkt).getLast (by simp)).time ∧
    (generate_attack_pcap
      [⟨PktKind.syn, "a", Sender.attacker, 0, 0, 3, RspShape.legacy, 1, 0⟩,
       ⟨PktKind.rst, "a", Sender.victim, 0, 1, 1, RspShape.legacy, 1, 0⟩]
      (fun _ => "out.pcap")).2.1
      = ([⟨PktKind.syn, "a", Sender.attacker, 0, 0, 3, RspShape.legacy, 1, 0⟩,
          ⟨PktKind.rst, "a", Sender.victim, 0, 1, 1, RspShape.legacy, 1, 0⟩] :
         List Pkt).length ∧
    (generate_attack_pcap
      [⟨PktKind.syn, "a", Sender.attacker, 0, 0, 3, RspShape.legacy, 1, 0⟩,
       ⟨PktKind.rst, "a", Sender.victim, 0, 1, 1, RspShape.legacy, 1, 0⟩]
      (fun _ => "out.pcap")).2.2
      = (fun _ => "out.pcap")
          (([⟨PktKind.syn, "a", Sender.attacker, 0, 0, 3, RspShape.legacy, 1, 0⟩,
             ⟨PktKind.rst, "a", Sender.victim, 0, 1, 1, RspShape.legacy, 1, 0⟩] :
            List Pkt).mergeSort (fun p q => decide (p.time ≤ q.time))) :=
  claim_c10_pcap_output
    [⟨PktKind.syn, "a", Sender.attacker, 0, 0, 3, RspShape.legacy, 1, 0⟩,
     ⟨PktKind.rst, "a", Sender.victim, 0, 1, 1, RspShape.legacy, 1, 0⟩]
    (fun _ => "out.pcap") (by simp)

end SMBScan

namespace Botnet

theorem setRefer_length : ∀ (l : List Message) (r : ℕ) (v : ℤ),
    (setRefer l r v).length = l.length
  | [], _, _ => rfl
  | _ :: _, 0, _ => rfl
  | m :: rest, r + 1, v => by
    simp only [setRefer, List.length_cons, setRefer_length rest r v]

theorem getD_setRefer_ne : ∀ (l : List Message) (r : ℕ) (v : ℤ) (i : ℕ), i ≠ r →
    (setRefer l r v).getD i default = l.getD i default
  | [], _, _, _, _ => rfl
  | m :: rest, 0, v, i, h => by
    cases i with
    | zero => exact absurd rfl h
    | succ i => simp [setRefer]
  | m :: rest, r + 1, v, i, h => by
    cases i with
    | zero => simp [setRefer]
    | succ i =>
      simp only [setRefer, List.getD_cons_succ]
      exact getD_setRefer_ne rest r v i (by omega)

theorem getD_setRefer_eq : ∀ (l : List Message) (r : ℕ) (v : ℤ), r < l.length →
    (setRefer l r v).getD r default = withRefer (l.getD r default) v
  | [], r, v, h => by simp at h
  | m :: rest, 0, v, _ => by simp [setRefer]
  | m :: rest, r + 1, v, h => by
    simp only [setRefer, List.getD_cons_succ]
    exact getD_setRefer_eq rest r v (by simpa using h)

theorem referN_withRefer_nat (m : Message) (n : ℕ) :
    referN (withRefer m (n : ℤ)) = some n := by
  simp [referN, withRefer]

theorem referN_neg (m : Message) (h : m.refer_msg_id = -1) : referN m = none := by
  simp [referN, h]

theorem referN_default : referN (default : Message) = none := rfl

theorem append_unset_inv (msgs : List Message) (preqs : ℕ × ℕ → Option ℕ)
    (t : MessageType) (src dst : ℕ) (tm : ℚ) (ln : ℤ)
    (h : InvCore msgs msgs.length preqs) :
    InvCore (msgs ++ [(⟨msgs.length, src, dst, t, tm, -1, ln⟩ : Message)]) (msgs.length + 1)
      preqs := by
  obtain ⟨hlen, hlt, huns, hkey, hreq, hpair⟩ := h
  have hget : ∀ i, i < msgs.length →
      (msgs ++ [(⟨msgs.length, src, dst, t, tm, -1, ln⟩ : Message)]).getD i default
        = msgs.getD i default :=
    fun i hi => List.getD_append _ _ _ _ hi
  have hgetm : (msgs ++ [(⟨msgs.length, src, dst, t, tm, -1, ln⟩ : Message)]).getD msgs.length
      default = ⟨msgs.length, src, dst, t, tm, -1, ln⟩ := by
    rw [List.getD_append_right _ _ _ _ (le_refl _)]
    simp
  constructor
  · simp
  · intro k r hk
    have := hlt k r hk
    simp only [List.length_append, List.length_cons, List.length_nil]
    omega
  · intro k r hk
    rw [hget r (hlt k r hk)]
    exact huns k r hk
  · intro k r hk
    rw [hget r (hlt k r hk)]
    exact hkey k r hk
  · intro k r hk
    rw [hget r (hlt k r hk)]
    exact hreq k r hk
  · intro i j hi href
    simp only [List.length_append, List.length_cons, List.length_nil] at hi
    by_cases hilen : i < msgs.length
    · rw [hget i hilen] at href
      obtain ⟨hj, hij, hsym, hty⟩ := hpair i j hilen href
      refine ⟨by simp; omega, hij, ?_, ?_⟩
      · rw [hget j hj]
        exact hsym
      · intro hlt2
        obtain ⟨h1, h2⟩ := hty hlt2
        rw [hget i hilen, hget j hj]
        exact ⟨h1, h2⟩
    · have : i = msgs.length := by omega
      subst this
      rw [hgetm] at href
      simp [referN] at href

theorem request_insert_inv (msgs : List Message) (preqs : ℕ × ℕ → Option ℕ)
    (t : MessageType) (src dst : ℕ) (tm : ℚ) (ln : ℤ)
    (h : InvCore msgs msgs.length preqs) (ht : isRequestType t = true) :
    InvCore (msgs ++ [(⟨msgs.length, src, dst, t, tm, -1, ln⟩ : Message)]) (msgs.length + 1)
      (fun k => if k = (src, dst) then some msgs.length else preqs k) := by
  obtain ⟨hlen2, hlt2, huns2, hkey2, hreq2, hpair2⟩ := append_unset_inv msgs preqs
    t src dst tm ln h
  have hgetm : (msgs ++ [(⟨msgs.length, src, dst, t, tm, -1, ln⟩ : Message)]).getD msgs.length
      default = ⟨msgs.length, src, dst, t, tm, -1, ln⟩ := by
    rw [List.getD_append_right _ _ _ _ (le_refl _)]
    simp
  constructor
  · exact hlen2
  · intro k r hk
    by_cases hkk : k = (src, dst)
    · subst hkk
      rw [if_pos rfl] at hk
      injection hk with hk2
      subst hk2
      simp
    · rw [if_neg hkk] at hk
      exact hlt2 k r hk
  · intro k r hk
    by_cases hkk : k = (src, dst)
    · subst hkk
      rw [if_pos rfl] at hk
      injection hk with hk2
      subst hk2
      rw [hgetm]
    · rw [if_neg hkk] at hk
      exact huns2 k r hk
  · intro k r hk
    by_cases hkk : k = (src, dst)
    · subst hkk
      rw [if_pos rfl] at hk
      injection hk with hk2
      subst hk2
      rw [hgetm]
    · rw [if_neg hkk] at hk
      exact hkey2 k r hk
  · intro k r hk
    by_cases hkk : k = (src, dst)
    · subst hkk
      rw [if_pos rfl] at hk
      injection hk with hk2
      subst hk2
      rw [hgetm]
      exact ht
    · rw [if_neg hkk] at hk
      exact hreq2 k r hk
  · exact hpair2

theorem matched_inv (msgs : List Message) (preqs : ℕ × ℕ → Option ℕ)
    (key : ℕ × ℕ) (r : ℕ) (t : MessageType) (src dst : ℕ) (tm : ℚ) (ln : ℤ)
    (h : InvCore msgs msgs.length preqs) (hk : preqs key = some r)
    (ht : isReplyType t = true) :
    InvCore (setRefer msgs r (msgs.length : ℤ) ++
        [(⟨msgs.length, src, dst, t, tm, (r : ℤ), ln⟩ : Message)]) (msgs.length + 1)
      (fun k => if k = key then none else preqs k) := by
  obtain ⟨hlen, hlt, huns, hkey, hreq, hpair⟩ := h
  have hr : r < msgs.length := hlt key r hk
  have hsr : (setRefer msgs r (msgs.length : ℤ)).length = msgs.length :=
    setRefer_length msgs r _
  have hget : ∀ i, i < msgs.length → i ≠ r →
      (setRefer msgs r (msgs.length : ℤ) ++
        [(⟨msgs.length, src, dst, t, tm, (r : ℤ), ln⟩ : Message)]).getD i default
        = msgs.getD i default := by
    intro i hi hir
    rw [List.getD_append _ _ _ _ (by rw [hsr]; exact hi)]
    exact getD_setRefer_ne msgs r _ i hir
  have hgetr : (setRefer msgs r (msgs.length : ℤ) ++
      [(⟨msgs.length, src, dst, t, tm, (r : ℤ), ln⟩ : Message)]).getD r default
      = withRefer (msgs.getD r default) (msgs.length : ℤ) := by
    rw [List.getD_append _ _ _ _ (by rw [hsr]; exact hr)]
    exact getD_setRefer_eq msgs r _ hr
  have hgetm : (setRefer msgs r (msgs.length : ℤ) ++
      [(⟨msgs.length, src, dst, t, tm, (r : ℤ), ln⟩ : Message)]).getD msgs.length default
      = ⟨msgs.length, src, dst, t, tm, (r : ℤ), ln⟩ := by
    rw [List.getD_append_right _ _ _ _ (by rw [hsr])]
    rw [hsr]
    simp
  have hkne : ∀ k r2, k ≠ key → preqs k = some r2 → r2 ≠ r := by
    intro k r2 hkk hk2 hcon
    subst hcon
    exact hkk ((hkey k r2 hk2).symm.trans (hkey key r2 hk))
  constructor
  · simp [hsr]
  · intro k r2 hk2
    by_cases hkk : k = key
    · simp [hkk] at hk2
    · rw [if_neg hkk] at hk2
      have := hlt k r2 hk2
      simp only [List.length_append, hsr, List.length_cons, List.length_nil]
      omega
  · intro k r2 hk2
    by_cases hkk : k = key
    · simp [hkk] at hk2
    · rw [if_neg hkk] at hk2
      rw [hget r2 (hlt k r2 hk2) (hkne k r2 hkk hk2)]
      exact huns k r2 hk2
  · intro k r2 hk2
    by_cases hkk : k = key
    · simp [hkk] at hk2
    · rw [if_neg hkk] at hk2
      rw [hget r2 (hlt k r2 hk2) (hkne k r2 hkk hk2)]
      exact hkey k r2 hk2
  · intro k r2 hk2
    by_cases hkk : k = key
    · simp [hkk] at hk2
    · rw [if_neg hkk] at hk2
      rw [hget r2 (hlt k r2 hk2) (hkne k r2 hkk hk2)]
      exact hreq k r2 hk2
  · have hlenapp : (setRefer msgs r (msgs.length : ℤ) ++
        [(⟨msgs.length, src, dst, t, tm, (r : ℤ), ln⟩ : Message)]).length
        = msgs.length + 1 := by
      simp [hsr]
    intro i j hi href
    rw [hlenapp] at hi
    by_cases hieq : i = msgs.length
    · subst hieq
      rw [hgetm] at href
      have hjr : r = j := by
        simpa [referN] using href
      subst hjr
      refine ⟨by omega, by omega, ?_, ?_⟩
      · rw [hgetr, referN_withRefer_nat]
      · intro hcon
        omega
    · by_cases hir : i = r
      · subst hir
        rw [hgetr, referN_withRefer_nat] at href
        injection href with hj
        subst hj
        refine ⟨by omega, by omega, ?_, ?_⟩
        · rw [hgetm]
          simp [referN]
        · intro _
          rw [hgetr, hgetm]
          constructor
          · simpa [withRefer] using hreq key i hk
          · exact ht
      · have hilen : i < msgs.length := by omega
        rw [hget i hilen hir] at href
        obtain ⟨hj, hij, hsym, hty⟩ := hpair i j hilen href
        have hjr : j ≠ r := by
          intro hcon
          subst hcon
          rw [referN_neg _ (huns key j hk)] at hsym
          simp at hsym
        refine ⟨by omega, hij, ?_, ?_⟩
        · rw [hget j hj hjr]
          exact hsym
        · intro hlt3
          obtain ⟨h1, h2⟩ := hty hlt3
          rw [hget i hilen hir, hget j hj hjr]
          exact ⟨h1, h2⟩

theorem types_disjoint (t : MessageType) (h1 : isRequestType t = true)
    (h2 : isReplyType t = true) : False := by
  cases t <;> simp [isRequestType, isReplyType] at h1 h2

theorem appendRequest_inv (st : ProcState) (p : AbsPacket) (h : Inv st)
    (ht : isRequestType p.type = true) : Inv (appendRequest st p) := by
  have hlen := h.len_eq
  unfold Inv appendRequest
  simp only []
  rw [hlen]
  exact request_insert_inv st.msgs st.prev_reqs p.type p.src p.dst p.time p.lineNo
    (hlen ▸ h) ht

theorem appendReply_inv (st : ProcState) (p : AbsPacket) (h : Inv st)
    (ht : isReplyType p.type = true) : Inv (appendReply st p) := by
  have hlen := h.len_eq
  unfold Inv appendReply
  cases hk : st.prev_reqs (p.dst, p.src) with
  | none =>
    simp only []
    rw [hlen]
    exact append_unset_inv st.msgs st.prev_reqs p.type p.src p.dst p.time p.lineNo
      (hlen ▸ h)
  | some r =>
    simp only []
    rw [hlen]
    exact matched_inv st.msgs st.prev_reqs (p.dst, p.src) r p.type p.src p.dst
      p.time p.lineNo (hlen ▸ h) hk ht

theorem appendTimeout_inv (st : ProcState) (p : AbsPacket) (h : Inv st) :
    Inv (appendTimeout st p) := by
  have hlen := h.len_eq
  unfold Inv appendTimeout
  cases hk : st.prev_reqs (p.dst, p.src) with
  | none => exact h
  | some r =>
    simp only []
    rw [hlen]
    exact matched_inv st.msgs st.prev_reqs (p.dst, p.src) r _ p.src p.dst
      p.time p.lineNo (hlen ▸ h) hk
      (by split <;> rfl)

theorem procStep_inv (natp : Bool) (localInit : ℕ → Bool) (st : ProcState)
    (p : AbsPacket) (h : Inv st) : Inv (procStep natp localInit st p) := by
  unfold procStep
  split
  next => exact h
  next =>
    split
    next hreq =>
      split
      next => exact appendRequest_inv _ p h hreq
      next =>
        split
        next => exact h
        next => exact appendRequest_inv _ p h hreq
    next =>
      split
      next hrep =>
        have hrep2 : isReplyType p.type = true := by
          have := (Bool.and_eq_true _ _).mp hrep
          exact this.1
        split
        next => exact appendReply_inv _ p h hrep2
        next =>
          split
          next => exact h
          next => exact appendReply_inv _ p h hrep2
      next =>
        split
        next => exact appendTimeout_inv st p h
        next => exact h

theorem initState_inv : Inv initState := by
  constructor
  · rfl
  · intro k r hk
    simp [initState] at hk
  · intro k r hk
    simp [initState] at hk
  · intro k r hk
    simp [initState] at hk
  · intro k r hk
    simp [initState] at hk
  · intro i j hi
    simp [initState] at hi

theorem foldl_inv (natp : Bool) (localInit : ℕ → Bool) :
    ∀ (packets : List AbsPacket) (st : ProcState), Inv st →
      Inv (packets.foldl (procStep natp localInit) st)
  | [], _, h => h
  | p :: rest, st, h =>
    foldl_inv natp localInit rest _ (procStep_inv natp localInit st p h)

theorem append_msgs_refer_persist (msgs : List Message) (m : Message) (i v : ℕ)
    (hi : i < msgs.length) (href : referN (msgs.getD i default) = some v) :
    referN ((msgs ++ [m]).getD i default) = some v := by
  rw [List.getD_append _ _ _ _ hi]
  exact href

theorem matched_msgs_refer_persist (msgs : List Message) (r : ℕ) (w : ℤ) (m : Message)
    (hrunset : (msgs.getD r default).refer_msg_id = -1) (i v : ℕ)
    (hi : i < msgs.length) (href : referN (msgs.getD i default) = some v) :
    referN ((setRefer msgs r w ++ [m]).getD i default) = some v := by
  have hir : i ≠ r := by
    intro hcon
    subst hcon
    rw [referN_neg _ hrunset] at href
    exact Option.noConfusion href
  rw [List.getD_append _ _ _ _ (by rw [setRefer_length]; exact hi),
    getD_setRefer_ne _ _ _ _ hir]
  exact href

theorem procStep_refer_persist (natp : Bool) (localInit : ℕ → Bool) (st : ProcState)
    (p : AbsPacket) (h : Inv st) (i v : ℕ)
    (href : referN (st.msgs.getD i default) = some v) :
    referN ((procStep natp localInit st p).msgs.getD i default) = some v := by
  have hi : i < st.msgs.length := by
    by_contra hcon
    rw [List.getD_eq_default _ _ (Nat.le_of_not_lt hcon), referN_default] at href
    exact Option.noConfusion href
  have hreqpers : ∀ st2 : ProcState, st2.msgs = st.msgs → st2.msg_id = st.msg_id →
      referN ((appendRequest st2 p).msgs.getD i default) = some v := by
    intro st2 hm _
    unfold appendRequest
    simp only [hm]
    exact append_msgs_refer_persist _ _ i v hi href
  have hreppers : ∀ st2 : ProcState, st2.msgs = st.msgs → st2.msg_id = st.msg_id →
      st2.prev_reqs = st.prev_reqs →
      referN ((appendReply st2 p).msgs.getD i default) = some v := by
    intro st2 hm hid hpr
    unfold appendReply
    cases hk : st2.prev_reqs (p.dst, p.src) with
    | none =>
      simp only [hm]
      exact append_msgs_refer_persist _ _ i v hi href
    | some r =>
      simp only [hm]
      exact matched_msgs_refer_persist _ r _ _
        (h.dict_unset _ r (by rw [← hpr]; exact hk)) i v hi href
  unfold procStep
  split
  next => exact href
  next =>
    split
    next hreq =>
      split
      next => exact hreqpers _ rfl rfl
      next =>
        split
        next => exact href
        next => exact hreqpers _ rfl rfl
    next =>
      split
      next hrep =>
        split
        next => exact hreppers _ rfl rfl rfl
        next =>
          split
          next => exact href
          next => exact hreppers _ rfl rfl rfl
      next =>
        split
        next =>
          unfold appendTimeout
          cases hk : st.prev_reqs (p.dst, p.src) with
          | none => exact href
          | some r =>
            simp only []
            exact matched_msgs_refer_persist _ r _ _
              (h.dict_unset _ r hk) i v hi href
        next => exact href

theorem foldl_refer_persist (natp : Bool) (localInit : ℕ → Bool) :
    ∀ (packets : List AbsPacket) (st : ProcState), Inv st → ∀ i v : ℕ,
      referN (st.msgs.getD i default) = some v →
      referN ((packets.foldl (procStep natp localInit) st).msgs.getD i default)
        = some v
  | [], _, _, _, _, href => href
  | p :: rest, st, h, i, v, href =>
    foldl_refer_persist natp localInit rest _ (procStep_inv natp localInit st p h) i v
      (procStep_refer_persist natp localInit st p h i v href)

/-- C5 counterexample.  On the two-packet input (request 1→2, reply 2→1, with
peer 1 mapped), the request at index 0 gets `refer_msg_id = 1`: a message
whose `refer_msg_id` is set refers to a LATER index, so "every message whose
refer_msg_id is set refers to an earlier message index" is false. -/
theorem claim_c5_counterexample :
    referN ((det_id_roles_and_msgs false (fun n => n == 1)
      [⟨1, 2, MessageType.sality_hello, 0, 1⟩,
       ⟨2, 1, MessageType.sality_hello_reply, 1, 2⟩]).getD 0 default) = some 1 ∧
    ¬ (1 < 0) := by
  exact ⟨rfl, by omega⟩

/-- C5 amended.  In `det_id_roles_and_msgs`' output: every REPLY message with
a set `refer_msg_id` refers to an earlier index (its matched request), while
every matched REQUEST's `refer_msg_id` is set to the later index of its reply;
the references pair up one-to-one, so no message is referenced twice; and a
`refer_msg_id` once set (after any prefix of the input) is never overwritten
by the remaining packets. -/
theorem claim_c5_amended (natp : Bool) (localInit : ℕ → Bool)
    (pre suf : List AbsPacket) :
    (∀ j i : ℕ, j < (det_id_roles_and_msgs natp localInit (pre ++ suf)).length →
      referN ((det_id_roles_and_msgs natp localInit (pre ++ suf)).getD j default)
        = some i →
      i ≠ j ∧ i < (det_id_roles_and_msgs natp localInit (pre ++ suf)).length ∧
      (isReplyType ((det_id_roles_and_msgs natp localInit
        (pre ++ suf)).getD j default).type = true → i < j) ∧
      (isRequestType ((det_id_roles_and_msgs natp localInit
        (pre ++ suf)).getD j default).type = true → j < i)) ∧
    (∀ j k i : ℕ,
      j < (det_id_roles_and_msgs natp localInit (pre ++ suf)).length →
      k < (det_id_roles_and_msgs natp localInit (pre ++ suf)).length →
      referN ((det_id_roles_and_msgs natp localInit (pre ++ suf)).getD j default)
        = some i →
      referN ((det_id_roles_and_msgs natp localInit (pre ++ suf)).getD k default)
        = some i →
      j = k) ∧
    (∀ i v : ℕ,
      referN ((det_id_roles_and_msgs natp localInit pre).getD i default) = some v →
      referN ((det_id_roles_and_msgs natp localInit (pre ++ suf)).getD i default)
        = some v) := by
  have hF : Inv ((pre ++ suf).foldl (procStep natp localInit) initState) :=
    foldl_inv natp localInit (pre ++ suf) initState initState_inv
  have hpair := hF.pair
  have hlenF := hF.len_eq
  refine ⟨?_, ?_, ?_⟩
  · intro j i hj href
    obtain ⟨hi, hji, hsym, hty⟩ := hpair j i hj href
    refine ⟨fun hcon => hji hcon.symm, hi, ?_, ?_⟩
    · intro hrepj
      rcases Nat.lt_or_ge i j with hlt | hge
      · exact hlt
      · have hlt2 : j < i := by omega
        exact absurd (hty hlt2).1 (fun hreqj => types_disjoint _ hreqj hrepj)
    · intro hreqj
      rcases Nat.lt_or_ge j i with hlt | hge
      · exact hlt
      · have hlt2 : i < j := by omega
        obtain ⟨_, _, _, hty2⟩ := hpair i j hi hsym
        exact absurd (hty2 hlt2).2 (fun hrepj => types_disjoint _ hreqj hrepj)
  · intro j k i hj hk hrj hrk
    obtain ⟨_, _, hsymj, _⟩ := hpair j i hj hrj
    obtain ⟨_, _, hsymk, _⟩ := hpair k i hk hrk
    have := hsymj.symm.trans hsymk
    exact Option.some.inj this
  · intro i v href
    unfold det_id_roles_and_msgs at href ⊢
    rw [List.foldl_append]
    exact foldl_refer_persist natp localInit suf _
      (foldl_inv natp localInit pre initState initState_inv) i v href

theorem claim_c5_amended_witness :
    referN ((det_id_roles_and_msgs false (fun n => n == 1)
      ([⟨1, 2, MessageType.sality_hello, 0, 1⟩] ++
       [⟨2, 1, MessageType.sality_hello_reply, 1, 2⟩])).getD 1 default)
      = some 0 ∧
    (0 : ℕ) ≠ 1 ∧ 0 < 1 := by
  have h := (claim_c5_amended false (fun n => n == 1)
    [⟨1, 2, MessageType.sality_hello, 0, 1⟩]
    [⟨2, 1, MessageType.sality_hello_reply, 1, 2⟩]).1 1 0 (by decide) rfl
  exact ⟨rfl, h.1, h.2.2.1 rfl⟩

/-- C6 counterexample.  Input: request 1→2 (so `req_seen` becomes true), then
reply 2→3 with peer 3 mapped but no pending request for the pair (3, 2).  The
reply IS included in the returned list (with `refer_msg_id = -1`), refuting
"it is not included in the returned message list". -/
theorem claim_c6_counterexample :
    (det_id_roles_and_msgs false (fun n => n == 1 || n == 3)
      [⟨1, 2, MessageType.sality_hello, 0, 1⟩,
       ⟨2, 3, MessageType.sality_hello_reply, 1, 2⟩]).length = 2 ∧
    (det_id_roles_and_msgs false (fun n => n == 1 || n == 3)
      [⟨1, 2, MessageType.sality_hello, 0, 1⟩,
       ⟨2, 3, MessageType.sality_hello_reply, 1, 2⟩]).getD 1 default
      = ⟨1, 2, 3, MessageType.sality_hello_reply, 1, -1, 2⟩ := by
  exact ⟨rfl, rfl⟩

/-- C6 amended.  A reply arriving before ANY request has been processed
(`req_seen` still false) is dropped entirely: the loop state is unchanged.
Once some request has been seen, a reply whose (source, destination) pair has
no pending entry and whose destination is mapped is still included in the
message list, with no reference set (`refer_msg_id = -1`) and no other
message modified. -/
theorem claim_c6_amended (natp : Bool) (localInit : ℕ → Bool) (st : ProcState)
    (p : AbsPacket) (hrep : isReplyType p.type = true) :
    (st.req_seen = false → procStep natp localInit st p = st) ∧
    (st.req_seen = true → st.prev_reqs (p.dst, p.src) = none →
      localInit p.dst = true →
      (procStep natp localInit st p).msgs
        = st.msgs ++ [⟨st.msg_id, p.src, p.dst, p.type, p.time, -1, p.lineNo⟩]) := by
  have hreq : isRequestType p.type = false := by
    cases hp : p.type <;> simp_all [isRequestType, isReplyType]
  have htm : (p.type = MessageType.timeout) = False := by
    cases hp : p.type <;> simp_all [isReplyType]
  constructor
  · intro hseen
    unfold procStep
    simp [hreq, hrep, hseen, htm]
  · intro hseen hnone hdst
    simp [procStep, appendReply, hreq, hrep, hseen, htm, hdst, hnone]

theorem claim_c6_amended_witness :
    (procStep false (fun n => n == 1 || n == 3) c6State
      ⟨2, 3, MessageType.sality_hello_reply, 1, 2⟩).msgs
      = c6State.msgs ++ [⟨1, 2, 3, MessageType.sality_hello_reply, 1, -1, 2⟩] :=
  (claim_c6_amended false (fun n => n == 1 || n == 3) c6State
    ⟨2, 3, MessageType.sality_hello_reply, 1, 2⟩ rfl).2 rfl rfl rfl

theorem runRandomAttempts_take :
    ∀ (n : ℕ) (cur : Option Interval) (l : List (Option Interval)),
      runRandomAttempts n cur l = runRandomAttempts n cur (l.take n)
  | 0, _, _ => rfl
  | _ + 1, _, [] => rfl
  | n + 1, cur, a :: rest => by
    simp only [runRandomAttempts, List.take_succ_cons]
    split
    · rfl
    · exact runRandomAttempts_take n a rest

theorem runRandomAttempts_falsy :
    ∀ (n : ℕ) (cur : Option Interval) (l : List (Option Interval)),
      intervalTruthy cur = false → (∀ a ∈ l, intervalTruthy a = false) →
      intervalTruthy (runRandomAttempts n cur l) = false
  | 0, _, _, hc, _ => hc
  | _ + 1, _, [], hc, _ => hc
  | n + 1, cur, a :: rest, _, hl => by
    simp only [runRandomAttempts, hl a (List.mem_cons_self a rest),
      Bool.false_eq_true, if_false]
    exact runRandomAttempts_falsy n a rest (hl a (List.mem_cons_self a rest))
      (fun b hb => hl b (List.mem_cons_of_mem a hb))

/-- C7.  `get_comm_interval` with strategy "random" inspects at most the
first five attempt results, and when no attempt yields an interval with
participants it returns the explicitly empty interval (`none`, the empty
dict) — the loop and the final check are total, so no exception is raised. -/
theorem claim_c7_random_interval (attempts : List (Option Interval)) :
    get_comm_interval_random attempts
      = get_comm_interval_random (attempts.take 5) ∧
    ((∀ a ∈ attempts.take 5, intervalTruthy a = false) →
      get_comm_interval_random attempts = none) := by
  constructor
  · unfold get_comm_interval_random
    rw [runRandomAttempts_take 5 none attempts]
  · intro hall
    unfold get_comm_interval_random
    rw [runRandomAttempts_take 5 none attempts]
    rw [runRandomAttempts_falsy 5 none (attempts.take 5) rfl hall]
    simp

theorem claim_c7_random_interval_witness :
    get_comm_interval_random
        [some ⟨[], 0, 0⟩, none, none, none, none, some ⟨[9], 1, 2⟩]
      = get_comm_interval_random
        ([some ⟨[], 0, 0⟩, none, none, none, none, some ⟨[9], 1, 2⟩].take 5) ∧
    get_comm_interval_random
        [some ⟨[], 0, 0⟩, none, none, none, none, some ⟨[9], 1, 2⟩] = none :=
  ⟨(claim_c7_random_interval _).1,
   (claim_c7_random_interval
     [some ⟨[], 0, 0⟩, none, none, none, none, some ⟨[9], 1, 2⟩]).2 (by decide)⟩

theorem truncateGo_length :
    ∀ (fuel : ℕ) (rs ids : List ℕ) (n : ℕ), ids.length ≤ n + fuel →
      (truncateGo fuel rs ids n).length = min ids.length n
  | 0, _, ids, n, h => by
    simp only [truncateGo]
    omega
  | fuel + 1, rs, ids, n, h => by
    rw [truncateGo]
    split
    next hlt =>
      have hpos : 0 < ids.length := by omega
      have herase : (ids.eraseIdx (rs.headI % ids.length)).length
          = ids.length - 1 :=
        List.length_eraseIdx_of_lt (Nat.mod_lt _ hpos)
      rw [truncateGo_length fuel rs.tail _ n (by rw [herase]; omega)]
      rw [herase]
      omega
    next hge =>
      omega

/-- C8 amended.  `get_messages` truncates an over-selected ID set down to
exactly `number_ids` (afterwards its size is `min original number_ids`, hence
at most `number_ids`); an interval with an EMPTY participant set is treated
as failure (mapped to the empty dict); but a nonempty participant set smaller
than the target is accepted unchanged by the custom strategy with explicit
bounds — under-selection is not treated as failure. -/
theorem claim_c8_amended (rs ids : List ℕ) (n s e : ℕ) :
    (truncateIds rs ids n).length = min ids.length n ∧
    (truncateIds rs ids n).length ≤ n ∧
    get_comm_interval_custom_both s e [] = none := by
  have h := truncateGo_length ids.length rs ids n (by omega)
  exact ⟨h, by rw [truncateIds, h]; omega, rfl⟩

/-- C8 counterexample.  With a configured target of `number_ids = 3`, the
custom strategy with explicit bounds accepts the one-participant interval
`get_interval_init_ids` returned: its ID set of size 1 < 3 is not treated as
a failure, refuting "an interval whose participant count falls below the
target is treated as a failure rather than accepted". -/
theorem claim_c8_counterexample :
    get_comm_interval_custom_both 1 5 [7] = some ⟨[7], 0, 4⟩ ∧
    (Interval.mk [7] 0 4).ids.length < 3 :=
  ⟨rfl, by decide⟩

end Botnet

namespace Controller

theorem writtenPcaps_covered {A Out : Type} (procAttack : A → ℕ → Out)
    (seeds : List (List ℕ)) (u1 u2 : ℕ → ℕ) :
    ∀ (cs : List A) (i : ℕ), i + cs.length ≤ seeds.length →
      writtenPcaps procAttack (some seeds) u1 cs i
        = writtenPcaps procAttack (some seeds) u2 cs i
  | [], _, _ => rfl
  | c :: cs, i, h => by
    have hi : i < seeds.length := by
      simp only [List.length_cons] at h
      omega
    simp only [writtenPcaps, rngSeed, if_pos hi]
    rw [writtenPcaps_covered procAttack seeds u1 u2 cs (i + 1)
      (by simp only [List.length_cons] at h; omega)]

/-- C9.  When every configured attack has an explicit seed, the output of
`process_attacks` is a pure function of the configurations and seeds: two
runs over the same input with the same seed list produce the identical merged
artifact regardless of what the secure random source would return, the
secure random source is consulted zero times, and each attack's seed is
exactly its entry of the seed list. -/
theorem claim_c9_deterministic {A Out : Type} (procAttack : A → ℕ → Out)
    (mergeAtk : Out → Out → Out) (cfgs : List A) (seeds : List (List ℕ))
    (u1 u2 : ℕ → ℕ) (hcover : cfgs.length ≤ seeds.length) :
    process_attacks procAttack mergeAtk cfgs (some seeds) u1
      = process_attacks procAttack mergeAtk cfgs (some seeds) u2 ∧
    urandomDraws (some seeds) cfgs.length = 0 ∧
    (∀ i, i < seeds.length →
      rngSeed (some seeds) u1 i = (seeds.getD i []).headI) := by
  refine ⟨?_, ?_, ?_⟩
  · unfold process_attacks
    rw [writtenPcaps_covered procAttack seeds u1 u2 cfgs 0 (by omega)]
  · simp only [urandomDraws]
    omega
  · intro i hi
    simp [rngSeed, hi]

theorem claim_c9_deterministic_witness :
    process_attacks (fun (c : ℕ) (s : ℕ) => c * 100 + s) (· + ·) [1, 2, 3]
        (some [[11], [22], [33]]) (fun _ => 0)
      = process_attacks (fun (c : ℕ) (s : ℕ) => c * 100 + s) (· + ·) [1, 2, 3]
        (some [[11], [22], [33]]) (fun _ => 999) ∧
    urandomDraws (some [[11], [22], [33]]) 3 = 0 ∧
    rngSeed (some [[11], [22], [33]]) (fun _ => 0) 0 = 11 := by
  have h := claim_c9_deterministic (fun (c : ℕ) (s : ℕ) => c * 100 + s) (· + ·)
    [1, 2, 3] [[11], [22], [33]] (fun _ => 0) (fun _ => 999) (by decide)
  exact ⟨h.1, h.2.1, (h.2.2 0 (by decide)).trans (by decide)⟩

end Controller

end ID2T
